import Mathlib

/-!
# Verification of the cerberus-ai research pipeline against its specification

This file shallowly embeds the parts of `backend/research_pipeline.py`,
`backend/database.py`, `backend/research.py` and `backend/discovery/utils.py`
that the specification's testable claims are about, and settles each claim.

Conventions:
* Python strings are modelled as Lean `String` (lists of characters); where a
  claim depends on the exact behaviour of CPython's `urllib.parse.urlparse`
  the URL is modelled as a `List Nat` of code points so that the arithmetic
  character classes of the parser can be reasoned about directly.
* The models cover ASCII inputs faithfully (`str.lower`, `str.strip`, `re`
  character classes are modelled at ASCII level; every concrete input used in
  a theorem below is ASCII).
* Fallible Python code is modelled with `Except`/`Option`; an unbound-name
  error (`NameError`) is an explicit error value.
-/

namespace Cerberus

/-! ## Basic Python string primitives (ASCII-faithful) -/

/-- ASCII lower-casing of one character, as `str.lower` acts on ASCII. -/
def asciiLower (c : Char) : Char :=
  if 65 ≤ c.toNat ∧ c.toNat ≤ 90 then Char.ofNat (c.toNat + 32) else c

/-- `str.lower()` (ASCII fragment). -/
def pyLower (s : String) : String := ⟨s.data.map asciiLower⟩

/-- Characters `str.strip()` removes (ASCII whitespace). -/
def isWs (c : Char) : Bool := c == ' ' || c == '\t' || c == '\n' || c == '\r' || c == '\x0b' || c == '\x0c'

/-- `str.strip()` (ASCII fragment). -/
def pyStrip (s : String) : String :=
  ⟨((s.data.dropWhile isWs).reverse.dropWhile isWs).reverse⟩

/-- Does list `n` occur at the start of `h`? -/
def startsWithL [BEq α] : List α → List α → Bool
  | [], _ => true
  | _ :: _, [] => false
  | a :: as, b :: bs => a == b && startsWithL as bs

/-- Does list `n` occur contiguously inside `h`?  (Python's `n in h`.) -/
def containsSubL [BEq α] (n : List α) : List α → Bool
  | [] => startsWithL n []
  | c :: r => startsWithL n (c :: r) || containsSubL n (c :: r).tail

/-- Python's substring test `needle in haystack`. -/
def pyIn (needle haystack : String) : Bool := containsSubL needle.data haystack.data

/-- Python's `s[:n]` on a string (first `n` characters). -/
def pyTake (n : Nat) (s : String) : String := ⟨s.data.take n⟩

/-! ## `_norm_method` (research_pipeline.py lines 169-200)

The normalizer used by `_extract_fields_with_llm`: an insertion-ordered
mapping of substring keys to closed-vocabulary labels, first hit wins;
`return "" if not t else m` for non-matching answers. -/

/-- The `mapping` dict of `_norm_method`, in insertion order. -/
def methodMap : List (String × String) :=
  [("ransom", "Ransomware"), ("lockbit", "Ransomware"), ("double", "Ransomware"),
   ("extortion", "Ransomware"), ("data breach", "Data breach"), ("breach", "Data breach"),
   ("leak", "Data breach"), ("exfil", "Data breach"), ("phishing", "Phishing"),
   ("credential", "Credential stuffing"), ("ddos", "DDoS"), ("denial", "DDoS"),
   ("vulnerability", "Vulnerability exploitation"), ("exploit", "Vulnerability exploitation"),
   ("sql", "Vulnerability exploitation"), ("supply", "Supply chain compromise"),
   ("third", "Supply chain compromise"), ("bec", "Business email compromise"),
   ("business email", "Business email compromise"), ("vishing", "Vishing"),
   ("voice", "Vishing"), ("backdoor", "Malware/Backdoor"), ("malware", "Malware/Backdoor"),
   ("espionage", "Espionage")]

/-- The `for k, v in mapping.items(): if k in t: return v` loop. -/
def firstMatch (t : String) : List (String × String) → Option String
  | [] => none
  | (k, v) :: rest => if pyIn k t then some v else firstMatch t rest

/-- `_norm_method` from `_extract_fields_with_llm`:
`t = (m or "").strip().lower()`; first mapping key contained in `t` wins;
otherwise `return "" if not t else m`. -/
def normMethod (m : String) : String :=
  let t := pyLower (pyStrip m)
  match firstMatch t methodMap with
  | some v => v
  | none => if t = "" then "" else m

/-- The closed method vocabulary the spec names. -/
def methodVocab : List String :=
  ["Ransomware", "Phishing", "Data breach", "DDoS", "Vulnerability exploitation",
   "Supply chain compromise", "Credential stuffing", "Business email compromise",
   "Vishing", "Malware/Backdoor", "Espionage"]

/-! ## URL canonicalization

`_canon_url` (research_pipeline.py lines 26-31) and `canon_url`
(discovery/utils.py lines 19-27) both do
`f"{pu.scheme}://{pu.netloc}{pu.path}".rstrip("/")` with
`pu = urllib.parse.urlparse(url)`; the discovery variant first returns the
URL unchanged when the parsed scheme is empty.

CPython's `urlparse` is modelled here on lists of code points (`PStr`): the
scheme scan (first char alphabetic, subsequent chars in `scheme_chars`,
terminated by the first `:`; the scheme is lower-cased), the netloc split
after a leading `//` up to the first of `/?#`, the fragment split at the
first `#`, the query split at the first `?`, and the params split (the part
after a `;` in the last path segment is dropped).  The model covers URLs
without ASCII control characters, tabs, newlines or square brackets (the
WHATWG pre-strip and the bracketed-IPv6 `ValueError` branch are outside the
modelled domain; every concrete URL below is in it). -/

/-- Python `str` as a list of code points, for the URL parser. -/
abbrev PStr := List Nat

/-- `':'` -/
abbrev cColon : Nat := 58
/-- `'/'` -/
abbrev cSlash : Nat := 47
/-- `'?'` -/
abbrev cQuest : Nat := 63
/-- `'#'` -/
abbrev cHash : Nat := 35
/-- `';'` -/
abbrev cSemi : Nat := 59

/-- ASCII letter. -/
def isAlphaN (n : Nat) : Bool := (65 ≤ n && n ≤ 90) || (97 ≤ n && n ≤ 122)

/-- ASCII digit. -/
def isDigitN (n : Nat) : Bool := 48 ≤ n && n ≤ 57

/-- CPython `scheme_chars`: letters, digits, `+`, `-`, `.`. -/
def schemeCharN (n : Nat) : Bool := isAlphaN n || isDigitN n || n == 43 || n == 45 || n == 46

/-- ASCII lower-casing of a code point (`str.lower` on the scheme). -/
def lowN (n : Nat) : Nat := if 65 ≤ n && n ≤ 90 then n + 32 else n

/-- Lower-case a code-point string. -/
def lowS (s : PStr) : PStr := s.map lowN

/-- Scan the characters of a candidate scheme after its first character:
succeed at the first `:`, keep scanning over `scheme_chars`, fail otherwise.
Mirrors `url.find(':')` followed by the character check in `urlsplit`. -/
def scanScheme : PStr → Option (PStr × PStr)
  | [] => none
  | c :: r =>
    if c == cColon then some ([], r)
    else if schemeCharN c then (scanScheme r).map (fun p => (c :: p.1, p.2))
    else none

/-- `urlsplit`'s scheme split: a scheme is recognised when the URL starts
with an alphabetic character and a `:` terminates a run of `scheme_chars`
(`i > 0` and the character check in CPython). -/
def splitScheme : PStr → Option (PStr × PStr)
  | [] => none
  | c :: r => if isAlphaN c then (scanScheme r).map (fun p => (c :: p.1, p.2)) else none

/-- A character that does not end the netloc (`_splitnetloc` stops at the
first of `/`, `?`, `#`). -/
def notDelim (n : Nat) : Bool := !(n == cSlash || n == cQuest || n == cHash)

/-- `_splitnetloc`: when the remainder starts with `//`, the netloc runs to
the first of `/?#`; otherwise there is no netloc. -/
def splitNetloc : PStr → PStr × PStr
  | 47 :: 47 :: r => (r.takeWhile notDelim, r.dropWhile notDelim)
  | u => ([], u)

/-- Everything before the first occurrence of code point `c`
(`url.split(c, 1)[0]`). -/
def beforeC (c : Nat) (u : PStr) : PStr := u.takeWhile (fun x => !(x == c))

/-- Drop a `;suffix` from one path segment (`seg[:seg.find(';')]`). -/
def dropParamsSeg (seg : PStr) : PStr := seg.takeWhile (fun x => !(x == cSemi))

/-- `urlparse`'s `_splitparams` applied to the path: when the path contains a
`/`, a `;` is only searched for in the segment after the last `/`; otherwise
in the whole path.  Returns the path with any params removed. -/
def splitParams (p : PStr) : PStr :=
  if p.contains cSlash then
    (p.reverse.dropWhile (fun x => !(x == cSlash))).reverse
      ++ dropParamsSeg (p.reverse.takeWhile (fun x => !(x == cSlash))).reverse
  else dropParamsSeg p

/-- The `(scheme, netloc, path)` components of `urlparse(u)` (query,
fragment and params are computed and discarded by the canonicalizers, so
only their removal from the path is modelled). -/
def parse3 (u : PStr) : PStr × PStr × PStr :=
  match splitScheme u with
  | some (s, rest) =>
    let nr := splitNetloc rest
    (lowS s, nr.1, splitParams (beforeC cQuest (beforeC cHash nr.2)))
  | none =>
    let nr := splitNetloc u
    ([], nr.1, splitParams (beforeC cQuest (beforeC cHash nr.2)))

/-- `str.rstrip("/")`. -/
def rstripSlash (u : PStr) : PStr := (u.reverse.dropWhile (fun x => x == cSlash)).reverse

/-- `f"{pu.scheme}://{pu.netloc}{pu.path}"`. -/
def fmtCanon (s n p : PStr) : PStr := s ++ cColon :: cSlash :: cSlash :: (n ++ p)

/-- `_canon_url` from research_pipeline.py (lines 26-31): format the parsed
scheme/netloc/path and strip trailing slashes. -/
def canonPipe (u : PStr) : PStr :=
  let t := parse3 u
  rstripSlash (fmtCanon t.1 t.2.1 t.2.2)

/-- `canon_url` from discovery/utils.py (lines 19-27): identical, except a
URL whose parsed scheme is empty is returned unchanged. -/
def canonDisc (u : PStr) : PStr :=
  if (parse3 u).1.isEmpty then u else canonPipe u

/-- Code points of a Lean string literal (for stating concrete URLs). -/
def cps (s : String) : PStr := s.data.map Char.toNat

/-- Rebuild a Lean string from code points (for the `String`-typed callers of
`_canon_url`; all values in the modelled domain are valid scalar values). -/
def fromCps (l : PStr) : String := ⟨l.map Char.ofNat⟩

/-- `_canon_url` as a `String → String` function, for the call sites inside
`process_candidate`. -/
def canonS (s : String) : String := fromCps (canonPipe (cps s))

/-! ## `_content_hash` and `_title_key` (research_pipeline.py lines 33-37)

`_content_hash(text)` is `hashlib.sha1(text.encode('utf-8')).hexdigest()`;
SHA-1 is implemented below over `Nat` with explicit `% 2^32`.
`_title_key(title)` is `re.sub(r"\W+", "", title.lower())[:100]` (ASCII
word characters modelled). -/

/-- 32-bit rotate left. -/
def rotl32 (n x : Nat) : Nat := ((x <<< n) + (x >>> (32 - n))) % 4294967296

/-- SHA-1 round function `f_t`. -/
def sha1F (t b c d : Nat) : Nat :=
  if t < 20 then (b &&& c) ||| ((4294967295 - b) &&& d)
  else if t < 40 then (b ^^^ c) ^^^ d
  else if t < 60 then ((b &&& c) ||| (b &&& d)) ||| (c &&& d)
  else (b ^^^ c) ^^^ d

/-- SHA-1 round constant `K_t`. -/
def sha1K (t : Nat) : Nat :=
  if t < 20 then 1518500249
  else if t < 40 then 1859775393
  else if t < 60 then 2400959708
  else 3395469782

/-- Big-endian 64-bit length encoding. -/
def be64 (n : Nat) : List Nat :=
  [(n >>> 56) % 256, (n >>> 48) % 256, (n >>> 40) % 256, (n >>> 32) % 256,
   (n >>> 24) % 256, (n >>> 16) % 256, (n >>> 8) % 256, n % 256]

/-- SHA-1 padding: `0x80`, zeros to 56 mod 64, then the bit length. -/
def sha1Pad (msg : List Nat) : List Nat :=
  let L := msg.length
  msg ++ 128 :: List.replicate ((119 - L % 64) % 64) 0 ++ be64 (8 * L)

/-- Group bytes into big-endian 32-bit words. -/
def toWords32 : List Nat → List Nat
  | b0 :: b1 :: b2 :: b3 :: rest => (((b0 * 256 + b1) * 256 + b2) * 256 + b3) :: toWords32 rest
  | _ => []

/-- 64-byte blocks (fuel-indexed so the kernel can evaluate it; the fuel
`l.length` always suffices since every step consumes 64 bytes). -/
def chunks64Aux : Nat → List Nat → List (List Nat)
  | 0, _ => []
  | _, [] => []
  | fuel + 1, a :: r => (a :: r).take 64 :: chunks64Aux fuel ((a :: r).drop 64)

/-- 64-byte blocks of the padded message. -/
def chunks64 (l : List Nat) : List (List Nat) := chunks64Aux l.length l

/-- The 80-entry message schedule of one block. -/
def sha1Words (ws : List Nat) : List Nat :=
  (List.range 80).foldl
    (fun acc t =>
      if t < 16 then acc ++ [ws.getD t 0]
      else acc ++ [rotl32 1 (((acc.getD (t - 3) 0) ^^^ (acc.getD (t - 8) 0)) ^^^
                             ((acc.getD (t - 14) 0) ^^^ (acc.getD (t - 16) 0)))])
    []

/-- SHA-1 compression of one 64-byte block into the running state. -/
def sha1Compress (h : Nat × Nat × Nat × Nat × Nat) (block : List Nat) :
    Nat × Nat × Nat × Nat × Nat :=
  let w := sha1Words (toWords32 block)
  let r := (List.range 80).foldl
    (fun st t =>
      let tmp := (rotl32 5 st.1 + sha1F t st.2.1 st.2.2.1 st.2.2.2.1 + st.2.2.2.2 +
                  sha1K t + w.getD t 0) % 4294967296
      (tmp, st.1, rotl32 30 st.2.1, st.2.2.1, st.2.2.2.1)) h
  ((h.1 + r.1) % 4294967296, (h.2.1 + r.2.1) % 4294967296,
   (h.2.2.1 + r.2.2.1) % 4294967296, (h.2.2.2.1 + r.2.2.2.1) % 4294967296,
   (h.2.2.2.2 + r.2.2.2.2) % 4294967296)

/-- Hex digit. -/
def hexDigit (n : Nat) : Char :=
  if n < 10 then Char.ofNat (48 + n) else Char.ofNat (87 + n)

/-- 8-digit lower-case hex of a 32-bit word. -/
def hex8 (n : Nat) : List Char :=
  [hexDigit ((n >>> 28) % 16), hexDigit ((n >>> 24) % 16), hexDigit ((n >>> 20) % 16),
   hexDigit ((n >>> 16) % 16), hexDigit ((n >>> 12) % 16), hexDigit ((n >>> 8) % 16),
   hexDigit ((n >>> 4) % 16), hexDigit (n % 16)]

/-- `hashlib.sha1(bytes).hexdigest()`. -/
def sha1Hex (msg : List Nat) : String :=
  let st := (chunks64 (sha1Pad msg)).foldl sha1Compress
    (1732584193, 4023233417, 2562383102, 271733878, 3285377520)
  ⟨hex8 st.1 ++ hex8 st.2.1 ++ hex8 st.2.2.1 ++ hex8 st.2.2.2.1 ++ hex8 st.2.2.2.2⟩

/-- UTF-8 encoding of one character. -/
def utf8Char (c : Char) : List Nat :=
  let n := c.toNat
  if n < 128 then [n]
  else if n < 2048 then [192 + n / 64, 128 + n % 64]
  else if n < 65536 then [224 + n / 4096, 128 + (n / 64) % 64, 128 + n % 64]
  else [240 + n / 262144, 128 + (n / 4096) % 64, 128 + (n / 64) % 64, 128 + n % 64]

/-- `text.encode('utf-8')`. -/
def utf8Encode (s : String) : List Nat := s.data.flatMap utf8Char

/-- `_content_hash` (research_pipeline.py line 36-37). -/
def contentHash (text : String) : String := sha1Hex (utf8Encode text)

/-- ASCII word character (`\w`). -/
def isWordChar (c : Char) : Bool := c.isAlphanum || c == '_'

/-- `_title_key` (research_pipeline.py lines 33-34):
`re.sub(r"\W+", "", title.lower())[:100]`. -/
def titleKey (title : String) : String :=
  ⟨((pyLower title).data.filter isWordChar).take 100⟩

/-! ## Draft persistence (database.py lines 357-405)

The `research_drafts` table has columns `..., qa_status, qa_message, link_ok,
is_duplicate, ...` (schema lines 229-252 plus the ALTER migrations).
`add_research_draft` builds an INSERT listing only the columns up to
`qa_status`: the `qa_message`, `link_ok` and `is_duplicate` values the caller
passes in the dict are never bound, so those columns take their defaults
(`NULL`, `0`, `0`).  `list_research_drafts_full` SELECTs
`id, title, date, qa_status, qa_message, source_url, canonical_url,
markdown_snippet, created_at` - in particular it does not select
`content_hash` or `title_key`. -/

/-- The dict `process_candidate` passes to `add_research_draft`
(research_pipeline.py lines 753-770). -/
structure DraftDict where
  title : String
  summary : String
  date : String
  targets : String
  method : String
  exploit_used : String
  relevance : String
  source_url : String
  canonical_url : String
  title_key : String
  content_hash : String
  markdown_snippet : String
  qa_status : String
  qa_message : String
  link_ok : Nat
  is_duplicate : Nat
deriving Repr, DecidableEq

/-- One stored `research_drafts` row (`Option` = SQL NULL). -/
structure StoredDraft where
  title : Option String
  summary : Option String
  date : Option String
  targets : Option String
  method : Option String
  exploit_used : Option String
  relevance : Option String
  source_url : Option String
  canonical_url : Option String
  title_key : Option String
  content_hash : Option String
  markdown_snippet : Option String
  qa_status : Option String
  qa_message : Option String
  link_ok : Nat
  is_duplicate : Nat
deriving Repr, DecidableEq

/-- `add_research_draft` (database.py lines 357-384): the INSERT binds the
columns `job_id, title, summary, date, targets, method, exploit_used,
relevance, source_url, canonical_url, title_key, content_hash,
markdown_snippet, qa_status, created_at, updated_at` from the dict; every
other column of the row keeps its schema default (`qa_message` NULL,
`link_ok` 0, `is_duplicate` 0). -/
def addResearchDraft (d : DraftDict) : StoredDraft :=
  { title := some d.title, summary := some d.summary, date := some d.date,
    targets := some d.targets, method := some d.method,
    exploit_used := some d.exploit_used, relevance := some d.relevance,
    source_url := some d.source_url, canonical_url := some d.canonical_url,
    title_key := some d.title_key, content_hash := some d.content_hash,
    markdown_snippet := some d.markdown_snippet, qa_status := some d.qa_status,
    qa_message := none, link_ok := 0, is_duplicate := 0 }

/-- One row as returned by `list_research_drafts_full` (database.py lines
396-405): only the SELECTed columns are present in the dict. -/
structure ListedDraft where
  title : Option String
  date : Option String
  qa_status : Option String
  qa_message : Option String
  source_url : Option String
  canonical_url : Option String
  markdown_snippet : Option String
deriving Repr, DecidableEq

/-- The projection `list_research_drafts_full` applies to each stored row. -/
def listedOf (r : StoredDraft) : ListedDraft :=
  { title := r.title, date := r.date, qa_status := r.qa_status,
    qa_message := r.qa_message, source_url := r.source_url,
    canonical_url := r.canonical_url, markdown_snippet := r.markdown_snippet }

/-- `list_research_drafts_full(job_id)` over the job's stored rows. -/
def listResearchDraftsFull (rows : List StoredDraft) : List ListedDraft :=
  rows.map listedOf

/-- Python `d.get(key)` on a `list_research_drafts_full` row dict: keys that
the SELECT did not include - `content_hash` in particular - yield `None`. -/
def ldGet (d : ListedDraft) (key : String) : Option String :=
  if key = "title" then d.title
  else if key = "date" then d.date
  else if key = "qa_status" then d.qa_status
  else if key = "qa_message" then d.qa_message
  else if key = "source_url" then d.source_url
  else if key = "canonical_url" then d.canonical_url
  else if key = "markdown_snippet" then d.markdown_snippet
  else none

/-- Python `d.get(k) == s` for a string `s` (`None == s` is `False`). -/
def optEqStr (o : Option String) (s : String) : Bool := o == some s

/-- The duplicate check of `process_candidate` (research_pipeline.py line
745): `any((d.get('source_url')==url) or (d.get('title')==(title)) or
(d.get('canonical_url')==cu) or (d.get('content_hash')==chash) ...)`. -/
def isDupe (url title cu chash : String) (ds : List ListedDraft) : Bool :=
  ds.any (fun d =>
    optEqStr (ldGet d "source_url") url || optEqStr (ldGet d "title") title ||
    optEqStr (ldGet d "canonical_url") cu || optEqStr (ldGet d "content_hash") chash)

/-- `_build_markdown_snippet` (research_pipeline.py lines 235-253). -/
def buildMarkdownSnippet (idx : Nat) (title summary date targets method exploit_used relevance source_url : String) : String :=
  let core := "## " ++ toString idx ++ ". " ++ title ++ "\n" ++ "\n" ++
    "**" ++ summary ++ "**\n"
  let core := core ++ (if date ≠ "" then "\n- Date of Incident: " ++ date ++ "\n" else "")
  let core := core ++ (if targets ≠ "" then "\n- Targets: " ++ targets ++ "\n" else "")
  let core := core ++ (if method ≠ "" then "\n- Method: " ++ method ++ "\n" else "")
  let core := core ++ (if exploit_used ≠ "" then "\n- Exploit Used: " ++ exploit_used ++ "\n" else "")
  let core := core ++ (if relevance ≠ "" then "\n- Relevance: " ++ relevance ++ "\n" else "")
  let core := core ++ (if source_url ≠ "" then "\n- Source: [" ++ title ++ "](" ++ source_url ++ ")\n" else "")
  core ++ "\n\n<br><br>\n\n"

/-! ## The draft-commit fragment of `process_candidate`
(research_pipeline.py lines 740-784)

`dupe` is computed against all prior drafts of the job via
`list_research_drafts_full`; `qa_ok` is the gate result conjoined with
`not dupe`, a non-empty summary and a non-empty URL; the draft is always
inserted; on `qa_ok` the job's `accepted_count` is set to the re-read
count plus one.  The gate result itself (`score`/`require_au` branch,
lines 730-738) is a parameter `qaPre` here: evaluating it raises a
`NameError` (see `processCandidate` below), so this fragment models the
commit logic as written. -/

/-- The candidate data reaching the commit fragment. -/
structure CandSpec where
  qaPre : Bool
  url : String
  title : String
  text : String
  summary : String
  date : String
  targets : String
  method : String
  exploit_used : String
  relevance : String
deriving Repr

/-- Line 741-748: the duplicate flag of a candidate against the job's prior
drafts. -/
def candidateDupe (c : CandSpec) (rows : List StoredDraft) : Bool :=
  isDupe c.url c.title (canonS c.url) (contentHash (pyTake 5000 c.text))
    (listResearchDraftsFull rows)

/-- Line 749: `qa_ok = qa_ok and (not dupe) and bool(summary) and bool(url)`. -/
def candidateQaOk (c : CandSpec) (rows : List StoredDraft) : Bool :=
  c.qaPre && !(candidateDupe c rows) && !(c.summary == "") && !(c.url == "")

/-- Lines 752-770: the dict `process_candidate` hands to
`add_research_draft` (`acc` is the `accepted_count` re-read at line 750). -/
def candidateDict (c : CandSpec) (rows : List StoredDraft) (acc : Nat) : DraftDict :=
  { title := c.title, summary := c.summary, date := c.date, targets := c.targets,
    method := c.method, exploit_used := c.exploit_used, relevance := c.relevance,
    source_url := c.url, canonical_url := canonS c.url, title_key := titleKey c.title,
    content_hash := contentHash (pyTake 5000 c.text),
    markdown_snippet := buildMarkdownSnippet (acc + 1) c.title c.summary c.date
      c.targets c.method c.exploit_used c.relevance c.url,
    qa_status := if candidateQaOk c rows then "ok" else "failed",
    qa_message := if candidateQaOk c rows then "" else "low score/duplicate/insufficient content",
    link_ok := 1, is_duplicate := if candidateDupe c rows then 1 else 0 }

/-- Lines 740-784: duplicate check, draft dict construction, insert, and the
conditional acceptance commit (line 779 sets `accepted_count := acc + 1`
exactly when `qa_ok`). -/
def commitCandidate (c : CandSpec) (rows : List StoredDraft) (acc : Nat) :
    List StoredDraft × Nat :=
  (rows ++ [addResearchDraft (candidateDict c rows acc)],
   if candidateQaOk c rows then acc + 1 else acc)

/-- Sequential runs of the commit fragment over a candidate list (one worker,
no interleaving), starting from prior rows and accepted count. -/
def commitRun (cs : List CandSpec) (rows : List StoredDraft) (acc : Nat) :
    List StoredDraft × Nat :=
  match cs with
  | [] => (rows, acc)
  | c :: rest =>
    let st := commitCandidate c rows acc
    commitRun rest st.1 st.2

/-! ## `process_candidate` up to the scoring gate
(research_pipeline.py lines 546-738)

`_is_low_signal` (lines 407-411) reads the name `accept_all`, and the gate
(lines 731-738) reads it directly; `accept_all` is bound nowhere in the
program (it is not a local of `run_research_job`, not a module global, not a
builtin), so evaluating it raises `NameError`.  `_score_candidate` (line
468) calls `_is_low_signal` unconditionally, hence line 730 raises for every
candidate that reaches it; line 654 raises earlier when
`filter_low_signal` is set.  The model returns `Except PyExn Bool` together
with the effects performed before the exception. -/

/-- A Python exception value. -/
inductive PyExn where
  | nameError (name : String)
deriving Repr, DecidableEq

instance : DecidableEq (Except PyExn Bool) := fun a b =>
  match a, b with
  | .ok x, .ok y =>
    if h : x = y then isTrue (by rw [h]) else isFalse (by simp [h])
  | .error x, .error y =>
    if h : x = y then isTrue (by rw [h]) else isFalse (by simp [h])
  | .ok _, .error _ => isFalse (by simp)
  | .error _, .ok _ => isFalse (by simp)

/-- The regex-split `\s` class (ASCII). -/
def isWsRe (c : Char) : Bool := isWs c

mutual

/-- Collect one sentence; a whitespace character after `.`, `!` or `?` ends
it (the `re.split(r"(?<=[.!?])\s+", ...)` boundary). -/
def sentCollect (prev : Char) (acc : List Char) : List Char → List (List Char)
  | [] => [acc.reverse]
  | c :: r =>
    if (prev == '.' || prev == '!' || prev == '?') && isWsRe c then
      acc.reverse :: sentSkipWs r
    else sentCollect c (c :: acc) r

/-- Skip the rest of a whitespace run after a sentence boundary. -/
def sentSkipWs : List Char → List (List Char)
  | [] => [[]]
  | c :: r => if isWsRe c then sentSkipWs r else sentCollect c [c] r

end

/-- `re.split(r"(?<=[.!?])\s+", s)` (no lookbehind can match at position 0,
so the scan starts with a non-punctuation previous character). -/
def sentSplit (s : String) : List String :=
  (sentCollect '\x00' [] s.data).map (fun l => ⟨l⟩)

/-- The fallback summary of lines 676-681: first 1000 characters, naive
sentence split, first three sentences joined and stripped, else the title
hint. -/
def naiveSummary (text titleHint : String) : String :=
  let first := pyTake 1000 text
  let s := pyStrip ⟨List.intercalate [' '] (((sentSplit first).take 3).map String.data)⟩
  if s = "" then titleHint else s

/-- The extractor result dict (`_extract_fields_with_llm` always returns one;
its fallback branch yields empty fields). -/
structure LlmFields where
  summary : String
  date : String
  targets : String
  method : String
  exploit_used : String
  incident : Bool
deriving Repr

/-- Everything one invocation of `process_candidate` observes: its arguments,
the job-level configuration captured by the closure, the job row returned by
the status check, and the text produced by the fetch layer (the fetch layer
itself is modelled separately for C3). -/
structure PCInput where
  url : String
  titleHint : String
  totalSeen : Nat
  maxCandidates : Nat
  seen : List String
  jobStatus : Option String
  acceptedCount : Nat
  target : Nat
  fetchedText : String
  filterLowSignal : Bool
  requireIncident : Bool
  incidentKw : List String
  llmFields : LlmFields

/-- The outcome of one `process_candidate` invocation: the returned value or
the raised exception, whether a draft row was inserted before returning, and
whether the fetch stage was reached. -/
structure PCOutcome where
  result : Except PyExn Bool
  draftInserted : Bool
  fetched : Bool
deriving Repr, DecidableEq

/-- `process_candidate` (research_pipeline.py lines 546-738).  Every branch
up to line 727 is translated; line 654 and line 730 evaluate `accept_all`
(through `_is_low_signal` / `_score_candidate`) and therefore raise
`NameError('accept_all')`; the draft-insert code of lines 740-784 is
unreachable from here. -/
def processCandidate (i : PCInput) : PCOutcome :=
  if i.maxCandidates ≤ i.totalSeen then ⟨.ok false, false, false⟩
  else if canonS i.url = "" then ⟨.ok false, false, false⟩
  else if i.seen.contains (pyLower (canonS i.url)) then ⟨.ok false, false, false⟩
  else
    match i.jobStatus with
    | none => ⟨.ok false, false, false⟩
    | some st =>
      if st = "canceled" || st = "failed" || st = "finalized" || st = "finalizing" then
        ⟨.ok false, false, false⟩
      else if i.target ≤ i.acceptedCount then ⟨.ok false, false, false⟩
      else if i.fetchedText = "" then ⟨.ok false, false, true⟩
      else if i.filterLowSignal then ⟨.error (.nameError "accept_all"), false, true⟩
      else if (if pyStrip i.llmFields.summary = "" then
                 naiveSummary i.fetchedText i.titleHint
               else pyStrip i.llmFields.summary) = "" then ⟨.ok false, false, true⟩
      else if i.requireIncident && !(i.incidentKw.any (fun k =>
               pyIn k (pyLower ((if i.titleHint = "" then "Untitled Incident"
                 else i.titleHint) ++ " " ++ i.fetchedText)))) then
        ⟨.ok false, false, true⟩
      else ⟨.error (.nameError "accept_all"), false, true⟩

/-- A candidate "reaches the scoring/gating step" (line 730): every earlier
return and raise is excluded. -/
@[reducible] def reachesScoring (i : PCInput) : Prop :=
  i.totalSeen < i.maxCandidates ∧ canonS i.url ≠ "" ∧
  pyLower (canonS i.url) ∉ i.seen ∧
  i.jobStatus = some "running" ∧ i.acceptedCount < i.target ∧
  i.fetchedText ≠ "" ∧ i.filterLowSignal = false ∧
  (if pyStrip i.llmFields.summary = "" then naiveSummary i.fetchedText i.titleHint
   else pyStrip i.llmFields.summary) ≠ "" ∧
  (i.requireIncident && !(i.incidentKw.any (fun k =>
    pyIn k (pyLower ((if i.titleHint = "" then "Untitled Incident" else i.titleHint) ++ " " ++ i.fetchedText))))) = false

/-- The `_run` worker wrapper (lines 825-834): re-checks `accepted_count`,
calls `process_candidate`, and catches any exception (logging it).  Returns
(draft inserted, candidate accepted). -/
def runWorker (i : PCInput) : Bool × Bool :=
  if i.target ≤ i.acceptedCount then (false, false)
  else
    match processCandidate i with
    | ⟨.ok b, d, _⟩ => (d, b)
    | ⟨.error _, d, _⟩ => (d, false)

/-! ## The orchestrator tail (research_pipeline.py lines 799-902)

The `while True` loop breaks when the status check at lines 800-801 sees a
terminal status, when `accepted_count >= target`, when the candidate budget
is exhausted, or when a page is empty; the auto-finalize block of lines
849-902 then runs unconditionally: it sets `status='finalizing'` (line 851),
reads the drafts, and sets `status='finalized'` on success of `add_research`
(line 895) or `status='failed'` on exception (line 900).  Drafts are only
read, never deleted. -/

/-- The statuses that stop workers and break the loop. -/
def stopStatuses : List String := ["canceled", "failed", "finalized", "finalizing"]

/-- The break test of one loop iteration (lines 800-807), over the job row
(status, accepted_count) the check reads. -/
def loopBreaks (cur : Option (String × Nat)) (target totalSeen maxC : Nat) : Bool :=
  match cur with
  | none => true
  | some (st, acc) => stopStatuses.contains st || target ≤ acc || maxC ≤ totalSeen

/-- The job-owned persistent state the finalize block touches. -/
structure JobPersist where
  status : String
  drafts : List StoredDraft
  reports : Nat
deriving Repr, DecidableEq

/-- The auto-finalize block (lines 849-902), run after every loop exit:
returns the updated state and the list of statuses written to the job row,
in order. -/
def autoFinalize (addResearchSucceeds : Bool) (j : JobPersist) : JobPersist × List String :=
  let j1 : JobPersist := { j with status := "finalizing" }
  if addResearchSucceeds then
    ({ j1 with status := "finalized", reports := j1.reports + 1 }, ["finalizing", "finalized"])
  else
    ({ j1 with status := "failed" }, ["finalizing", "failed"])

/-! ## The DB-backed page cache path (research_pipeline.py lines 590-642)

database.py defines no `get_cached_page`, `refresh_cached_page` or
`upsert_cached_page` function anywhere (and creates no cached-pages table):
each call raises `AttributeError`, which lines 592-595 turn into
`cached_row = None` and lines 610-613 / 622-625 / 629-642 swallow.  The
pipeline logic of the non-bypass branch is translated below with the row
returned by `get_cached_page` as a parameter, and the program-level fact
that this row is always `None` is the definition `dbGetCachedPage`. -/

/-- A cached-page row as the pipeline code reads it. -/
structure CacheRow where
  text : String
  etag : Option String
  lastModified : Option String
  cachedUntil : Option Int
deriving Repr, DecidableEq

/-- The metadata `_http_get_text` returns (`None` only when the whole call
raised). -/
structure NetMeta where
  status : Nat
  etag : Option String
  lastModified : Option String
deriving Repr, DecidableEq

/-- The `(text, html, meta)` outcome of `_http_get_text`: empty text with
`meta.status` set for a non-200 response, empty text and no meta on a
network exception. -/
structure NetResult where
  text : String
  meta : Option NetMeta
deriving Repr, DecidableEq

/-- The observable behaviour of one pass through the non-bypass fetch path. -/
structure FetchEff where
  text : String
  networkCalled : Bool
  sentEtag : Option String
  sentLastModified : Option String
  refreshAttempted : Bool
  upsertAttempted : Bool
deriving Repr, DecidableEq

/-- What `await database.get_cached_page(cu)` yields in this program: the
attribute does not exist, the `AttributeError` is caught at lines 592-595,
and `cached_row` is `None` - for every URL, always. -/
def dbGetCachedPage : Option CacheRow := none

/-- Lines 590-642 (the `else` branch of `bypass_cache`), as a function of the
cached row, the current time, the in-memory cache entry and the network
response the conditional GET would produce.  `now ≤ t` models
`cu_dt >= datetime.utcnow()`. -/
def fetchNonBypass (cachedRow : Option CacheRow) (now : Int) (_inMem : Option String)
    (net : NetResult) : FetchEff :=
  let etag := cachedRow.bind (·.etag)
  let lastMod := cachedRow.bind (·.lastModified)
  let withinTtl :=
    match cachedRow with
    | some row => match row.cachedUntil with
      | some t => decide (now ≤ t)
      | none => false
    | none => false
  if withinTtl then
    { text := (cachedRow.map (·.text)).getD "", networkCalled := false,
      sentEtag := none, sentLastModified := none,
      refreshAttempted := true, upsertAttempted := false }
  else
    let status := match net.meta with | some m => m.status | none => 0
    if status == 304 && cachedRow.isSome then
      { text := (cachedRow.map (·.text)).getD "", networkCalled := true,
        sentEtag := etag, sentLastModified := lastMod,
        refreshAttempted := true, upsertAttempted := false }
    else
      { text := net.text, networkCalled := true,
        sentEtag := etag, sentLastModified := lastMod,
        refreshAttempted := false, upsertAttempted := true }

/-- The non-bypass fetch path as it actually runs in this program: the
cached row is always `dbGetCachedPage = None`. -/
def fetchAsShipped (now : Int) (inMem : Option String) (net : NetResult) : FetchEff :=
  fetchNonBypass dbGetCachedPage now inMem net

/-! ## `fetch_page` (research_pipeline.py lines 517-544)

In API-free mode the page is a slice of the pre-discovered candidates.  In
search mode SerpAPI is called whenever `use_serpapi` is set and a SerpAPI
key is present, and Tavily is called whenever `use_tavily` is set and a
Tavily key is present - the Tavily call is not conditioned on what the
SerpAPI call returned.  A backend exception contributes no results. -/

/-- One search result `{url, title, content}`. -/
structure SearchHit where
  url : String
  title : String
  content : String
deriving Repr, DecidableEq

/-- The page assembly of `fetch_page`: returns (results, serpapiCalled,
tavilyCalled). -/
def fetchPage (apiFree : Bool) (discovered : List SearchHit) (pageIndex pageSize : Nat)
    (useSerpapi serpKeySet useTavily tavilyKeySet : Bool)
    (serp : Except Unit (List SearchHit)) (tav : Except Unit (List SearchHit)) :
    List SearchHit × Bool × Bool :=
  if apiFree then ((discovered.drop (pageIndex * pageSize)).take pageSize, false, false)
  else
    let serpCalled := useSerpapi && serpKeySet
    let r1 := if serpCalled then (match serp with | .ok l => l | .error _ => []) else []
    let tavCalled := useTavily && tavilyKeySet
    let r2 := if tavCalled then (match tav with | .ok l => l | .error _ => []) else []
    (r1 ++ r2, serpCalled, tavCalled)

/-! ## The acceptance commit protocol under concurrency
(research_pipeline.py lines 558-563, 750, 777-780)

A worker (a) checks `accepted_count < target` before fetching (line 562),
(b) after the gate re-reads `accepted_count` (line 750), and (c) commits
`accepted_count := read + 1` (line 779) without comparing the re-read value
against the target.  Between (a), (b) and (c) the coroutine suspends on
`await`s, so steps of two workers interleave arbitrarily.  The model below
is this protocol for two workers whose candidates pass the gate. -/

/-- One worker's control point. -/
inductive WStage where
  | idle
  | checked
  | readAcc (a : Nat)
  | committed
deriving Repr, DecidableEq

/-- Shared `accepted_count` plus both workers' control points. -/
structure RaceState where
  acc : Nat
  w1 : WStage
  w2 : WStage
deriving Repr, DecidableEq

/-- Interleaved steps of the two workers: `check` is line 562 (proceed only
while `accepted_count < target`), `read` is line 750, `commit` is line 779
(`accepted_count := read + 1`, no target re-check). -/
inductive RaceStep (target : Nat) : RaceState → RaceState → Prop where
  | check1 (s : RaceState) : s.w1 = .idle → s.acc < target →
      RaceStep target s { s with w1 := .checked }
  | read1 (s : RaceState) : s.w1 = .checked →
      RaceStep target s { s with w1 := .readAcc s.acc }
  | commit1 (s : RaceState) (a : Nat) : s.w1 = .readAcc a →
      RaceStep target s { s with acc := a + 1, w1 := .committed }
  | check2 (s : RaceState) : s.w2 = .idle → s.acc < target →
      RaceStep target s { s with w2 := .checked }
  | read2 (s : RaceState) : s.w2 = .checked →
      RaceStep target s { s with w2 := .readAcc s.acc }
  | commit2 (s : RaceState) (a : Nat) : s.w2 = .readAcc a →
      RaceStep target s { s with acc := a + 1, w2 := .committed }

/-- Reachability through interleaved worker steps. -/
def RaceReach (target : Nat) : RaceState → RaceState → Prop :=
  Relation.ReflTransGen (RaceStep target)

/-- The same protocol executed sequentially (each candidate's check, read
and commit run without interleaving): per accepted candidate the counter
becomes read + 1 where the read equals the checked value. -/
def seqAccept (target : Nat) (acc : Nat) : List Bool → Nat
  | [] => acc
  | gate :: rest => seqAccept target (if acc < target && gate then acc + 1 else acc) rest

/-! ## Adaptive relaxation (research_pipeline.py lines 841-847)

After each page the loop re-reads the job and, when the job's cumulative
`accepted_count` is still zero and the current threshold exceeds 0.5,
lowers the threshold: `dynamic_min_score = max(0.5, dynamic_min_score -
0.5)`.  All values involved are small dyadic floats for which Python float
arithmetic is exact, so the threshold is modelled in `ℚ`. -/

/-- One end-of-page relaxation step over (cumulative accepted, threshold),
given the acceptances the page produced. -/
def relaxStep (st : Nat × ℚ) (pageAccepted : Nat) : Nat × ℚ :=
  (st.1 + pageAccepted,
   if st.1 + pageAccepted = 0 ∧ (1 : ℚ)/2 < st.2 then max ((1 : ℚ)/2) (st.2 - 1/2) else st.2)

/-- The relaxation state after a sequence of pages. -/
def relaxRun (s0 : ℚ) (pages : List Nat) : Nat × ℚ :=
  pages.foldl relaxStep (0, s0)

/-! # Theorems -/

/-! ## C8 - `_norm_method` normalization -/

/-- A hit of the substring loop names one of the mapping's values. -/
theorem firstMatch_mem_snd (t : String) (l : List (String × String)) (v : String)
    (h : firstMatch t l = some v) : v ∈ l.map Prod.snd := by
  induction l with
  | nil => simp [firstMatch] at h
  | cons kv rest ih =>
    obtain ⟨k, w⟩ := kv
    by_cases hc : pyIn k t
    · simp only [firstMatch, hc, if_pos] at h
      simp [← Option.some_inj.mp h]
    · simp only [firstMatch, hc, if_neg, Bool.false_eq_true, reduceIte] at h
      simp [ih h]

/-- C8, counterexample: the model answer "AI worm attack" matches no
vocabulary key, and `_norm_method` returns it verbatim - it is not mapped to
"unspecified". -/
theorem norm_method_passthrough :
    normMethod "AI worm attack" = "AI worm attack" ∧
    normMethod "AI worm attack" ≠ "unspecified" := by decide

/-- C8, amended: `_norm_method` lower-cases and strips the model's answer and
matches mapping keys by substring in insertion order; a hit returns the
mapped closed-vocabulary label; with no hit, an empty or whitespace-only
answer becomes `""` and any other answer is returned unchanged (invented
categories pass through; nothing is ever mapped to "unspecified"). -/
theorem norm_method_amended :
    (∀ m : String, firstMatch (pyLower (pyStrip m)) methodMap = none →
      normMethod m = if pyLower (pyStrip m) = "" then "" else m) ∧
    (∀ (m v : String), firstMatch (pyLower (pyStrip m)) methodMap = some v →
      normMethod m = v ∧ v ∈ methodVocab) := by
  constructor
  · intro m h
    simp only [normMethod, h]
  · intro m v h
    refine ⟨by simp only [normMethod, h], ?_⟩
    have hmem := firstMatch_mem_snd _ _ _ h
    have hsub : ∀ x ∈ methodMap.map Prod.snd, x ∈ methodVocab := by decide
    exact hsub v hmem

/-- C8 witness: "voice call" hits the key "voice" and is normalized to the
vocabulary label "Vishing". -/
theorem norm_method_amended_witness :
    firstMatch (pyLower (pyStrip "voice call")) methodMap = some "Vishing" ∧
    normMethod "voice call" = "Vishing" ∧ "Vishing" ∈ methodVocab :=
  ⟨by decide, norm_method_amended.2 "voice call" "Vishing" (by decide)⟩

/-! ## C9 - search backend fan-out in `fetch_page` -/

/-- C9, counterexample: with both backends enabled and keyed, a page request
whose SerpAPI call succeeds with a non-empty result list still calls Tavily. -/
theorem tavily_called_despite_primary_success :
    (fetchPage false [] 0 30 true true true true
      (.ok [{ url := "https://a.com/x", title := "t", content := "c" }])
      (.ok [])).2.2 = true ∧
    (fetchPage false [] 0 30 true true true true
      (.ok [{ url := "https://a.com/x", title := "t", content := "c" }])
      (.ok [])).2.1 = true := by decide

/-- C9, amended: in search mode `fetch_page` calls SerpAPI iff `use_serpapi`
and a SerpAPI key are set, calls Tavily iff `use_tavily` and a Tavily key are
set - independently of the primary's outcome - and concatenates whatever the
two calls produced (an erroring backend contributes nothing); in API-free
mode neither backend is called and the page is a slice of the pre-discovered
candidates. -/
theorem fetch_page_backends_unconditional :
    ∀ (disc : List SearchHit) (pi ps : Nat) (us sk ut tk : Bool)
      (serp tav : Except Unit (List SearchHit)),
      (fetchPage false disc pi ps us sk ut tk serp tav).2.1 = (us && sk) ∧
      (fetchPage false disc pi ps us sk ut tk serp tav).2.2 = (ut && tk) ∧
      (fetchPage false disc pi ps us sk ut tk serp tav).1 =
        (if us && sk then (match serp with | .ok l => l | .error _ => []) else []) ++
        (if ut && tk then (match tav with | .ok l => l | .error _ => []) else []) ∧
      fetchPage true disc pi ps us sk ut tk serp tav =
        ((disc.drop (pi * ps)).take ps, false, false) := by
  intro disc pi ps us sk ut tk serp tav
  exact ⟨rfl, rfl, rfl, rfl⟩

/-! ## C10 - adaptive relaxation -/

/-- One relaxation step never raises the threshold. -/
theorem relaxStep_le (st : Nat × ℚ) (p : Nat) : (relaxStep st p).2 ≤ st.2 := by
  unfold relaxStep
  split
  · next h =>
    exact max_le (le_of_lt h.2) (by linarith)
  · exact le_refl _

/-- The threshold after any pages is at most the starting threshold. -/
theorem relaxFold_le : ∀ (pages : List Nat) (st : Nat × ℚ),
    (pages.foldl relaxStep st).2 ≤ st.2 := by
  intro pages
  induction pages with
  | nil => intro st; exact le_refl _
  | cons p ps ih =>
    intro st
    exact le_trans (ih (relaxStep st p)) (relaxStep_le st p)

/-- The threshold never drops below `min` of its start and the hard floor
`0.5`. -/
theorem relaxFold_floor : ∀ (pages : List Nat) (st : Nat × ℚ),
    min st.2 ((1 : ℚ)/2) ≤ (pages.foldl relaxStep st).2 := by
  intro pages
  induction pages with
  | nil => intro st; exact min_le_left _ _
  | cons p ps ih =>
    intro st
    refine le_trans ?_ (ih (relaxStep st p))
    refine le_min ?_ (min_le_right _ _)
    unfold relaxStep
    split
    · exact le_trans (min_le_right _ _) (le_max_left _ _)
    · exact min_le_left _ _

/-- C10, counterexample: with threshold 3, a first page that accepts one
draft followed by a page that accepts zero drafts leaves the threshold at 3:
the step fires only while the job's cumulative accepted count is zero, not
"whenever an entire page yields zero accepted drafts". -/
theorem relaxation_trigger_counterexample :
    (relaxRun 3 [1, 0]).2 = 3 ∧ (relaxRun 3 [1]).2 = 3 ∧
    (1 : ℚ)/2 < 3 ∧ (relaxRun 3 [0]).2 = 3 - 1/2 := by
  refine ⟨?_, ?_, by norm_num, ?_⟩
  · simp only [relaxRun, relaxStep, List.foldl]
    norm_num
  · simp only [relaxRun, relaxStep, List.foldl]
    norm_num
  · simp only [relaxRun, relaxStep, List.foldl]
    rw [if_pos (by norm_num), max_eq_right (by norm_num)]

/-- C10, amended: over the life of one job the threshold is monotonically
non-increasing and never drops below `min(initial, 0.5)`; it is lowered (by
0.5, clamped at 0.5) after a page only when the job's cumulative accepted
count is still zero and the threshold exceeds 0.5 - a page yielding zero
accepted drafts after the first acceptance does not lower it. -/
theorem relaxation_monotone_floor :
    ∀ (s0 : ℚ) (pages : List Nat),
      (relaxRun s0 pages).2 ≤ s0 ∧
      min s0 ((1 : ℚ)/2) ≤ (relaxRun s0 pages).2 ∧
      (∀ (st : Nat × ℚ) (p : Nat),
        (relaxStep st p).2 = st.2 ∨
        (st.1 + p = 0 ∧ (1 : ℚ)/2 < st.2 ∧
          (relaxStep st p).2 = max ((1 : ℚ)/2) (st.2 - 1/2))) := by
  intro s0 pages
  refine ⟨relaxFold_le pages (0, s0), relaxFold_floor pages (0, s0), ?_⟩
  intro st p
  unfold relaxStep
  split
  · next h => exact Or.inr ⟨h.1, h.2, rfl⟩
  · exact Or.inl rfl

/-! ## C5 - rejected candidates and their stored reason -/

/-- A concrete candidate that fails the acceptance gate. -/
def rejectedCand : CandSpec :=
  { qaPre := false, url := "https://news.example.com/2024/low-score-item",
    title := "Low score item", text := "Some page text.", summary := "A summary.",
    date := "", targets := "", method := "", exploit_used := "", relevance := "" }

/-- C5: `process_candidate` does put a non-empty reason into the draft dict
of a gated-out candidate (`'low score/duplicate/insufficient content'`), and
the row is inserted with `qa_status='failed'` - but `add_research_draft`'s
INSERT does not bind the `qa_message` column (nor `link_ok`/`is_duplicate`),
so the stored row's `qa_message` is NULL for every draft: the reason is
dropped by the persistence layer and rejected candidates carry no stored
reason. -/
theorem qa_message_dropped_on_insert :
    (∀ d : DraftDict, (addResearchDraft d).qa_message = none ∧
      (addResearchDraft d).link_ok = 0 ∧ (addResearchDraft d).is_duplicate = 0) ∧
    (candidateDict rejectedCand [] 0).qa_message = "low score/duplicate/insufficient content" ∧
    (candidateDict rejectedCand [] 0).qa_message ≠ "" ∧
    ((commitCandidate rejectedCand [] 0).1.map fun r => (r.qa_status, r.qa_message)) =
      [(some "failed", none)] := by
  refine ⟨fun d => ⟨rfl, rfl, rfl⟩, ?_, ?_, ?_⟩ <;> decide

/-! ## C3 - the page cache -/

/-- When `get_cached_page` returns a live row, the written logic of lines
599-613 reuses the cached text without a network call (the refresh is
attempted); this is the behaviour the spec describes, and it is unreachable
in the shipped program. -/
theorem fetchNonBypass_within_ttl (row : CacheRow) (t now : Int) (inMem : Option String)
    (net : NetResult) (hrow : row.cachedUntil = some t) (h : now ≤ t) :
    fetchNonBypass (some row) now inMem net =
      { text := row.text, networkCalled := false, sentEtag := none,
        sentLastModified := none, refreshAttempted := true, upsertAttempted := false } := by
  simp [fetchNonBypass, hrow, h]

/-- A live cached row, for the witness below. -/
def ttlRowEx : CacheRow :=
  { text := "cached", etag := some "e", lastModified := none, cachedUntil := some 100 }

/-- An empty network outcome, for the witness below. -/
def netNoneEx : NetResult := { text := "", meta := none }

/-- Witness for the unreachable-intent lemma. -/
theorem fetchNonBypass_within_ttl_witness :
    ttlRowEx.cachedUntil = some 100 ∧ (50 : Int) ≤ 100 ∧
    fetchNonBypass (some ttlRowEx) 50 none netNoneEx =
      { text := "cached", networkCalled := false, sentEtag := none,
        sentLastModified := none, refreshAttempted := true, upsertAttempted := false } :=
  ⟨rfl, by norm_num,
    fetchNonBypass_within_ttl ttlRowEx 100 50 none netNoneEx rfl (by norm_num)⟩

/-- C3: in the shipped program the cached row is always `None` (database.py
defines no `get_cached_page`/`refresh_cached_page`/`upsert_cached_page`, and
the `AttributeError`s are swallowed), so every pass through the non-bypass
fetch path calls the network, sends no `If-None-Match`/`If-Modified-Since`
header, and never refreshes an entry: fetching the same canonical URL twice
within the TTL window issues two network requests, not at most one, and the
`304` path is unreachable. -/
theorem cache_lookup_always_misses :
    ∀ (now : Int) (inMem : Option String) (net : NetResult),
      (fetchAsShipped now inMem net).networkCalled = true ∧
      (fetchAsShipped now inMem net).sentEtag = none ∧
      (fetchAsShipped now inMem net).sentLastModified = none ∧
      (fetchAsShipped now inMem net).refreshAttempted = false ∧
      (fetchAsShipped now inMem net).text = net.text := by
  intro now inMem net
  simp [fetchAsShipped, fetchNonBypass, dbGetCachedPage]

/-! ## C1 - the unbound `accept_all` gate -/

/-- The only outcomes `process_candidate` can produce: an early `False`
return, or the `NameError` - never an insert, never `True`. -/
theorem processCandidate_outcomes (i : PCInput) :
    processCandidate i = ⟨.ok false, false, false⟩ ∨
    processCandidate i = ⟨.ok false, false, true⟩ ∨
    processCandidate i = ⟨.error (.nameError "accept_all"), false, true⟩ := by
  unfold processCandidate
  repeat' split
  all_goals
    first
      | exact Or.inl rfl
      | exact Or.inr (Or.inl rfl)
      | exact Or.inr (Or.inr rfl)

/-- C1: for every input, `process_candidate` never returns `True`, never
inserts a draft row, and its `_run` wrapper always reports (no draft, not
accepted); whenever a candidate reaches the scoring/gating step (fetch
succeeded, low-signal filter off, summary non-empty, incident-keyword filter
passed), evaluation raises `NameError('accept_all')` - `_score_candidate`
calls `_is_low_signal`, which reads the unbound name `accept_all`.  The
exception is caught and logged per candidate in `_run`. -/
theorem process_candidate_raises_accept_all :
    ∀ i : PCInput,
      (processCandidate i).draftInserted = false ∧
      (processCandidate i).result ≠ .ok true ∧
      runWorker i = (false, false) ∧
      (reachesScoring i →
        (processCandidate i).result = .error (.nameError "accept_all") ∧
        (processCandidate i).fetched = true) := by
  intro i
  have ho := processCandidate_outcomes i
  have hd : (processCandidate i).draftInserted = false := by
    rcases ho with h | h | h <;> rw [h]
  have hr : (processCandidate i).result ≠ .ok true := by
    rcases ho with h | h | h <;> (rw [h]; simp)
  refine ⟨hd, hr, ?_, ?_⟩
  · unfold runWorker
    split
    · rfl
    · rcases ho with h | h | h <;> rw [h]
  · intro h
    obtain ⟨h1, h2, h3, h4, h5, h6, h7, h8, h9⟩ := h
    unfold processCandidate
    rw [if_neg (by omega), if_neg h2, if_neg (by simp [h3]), h4]
    dsimp only
    rw [if_neg (by decide), if_neg (by omega), if_neg h6, if_neg (by simp [h7]),
      if_neg h8, if_neg (by simp [h9])]
    exact ⟨rfl, rfl⟩

/-- A concrete candidate that reaches the scoring step. -/
def pcScoringEx : PCInput :=
  { url := "https://news.example.com/2024/breach-report",
    titleHint := "Major breach", totalSeen := 0, maxCandidates := 100,
    seen := [], jobStatus := some "running", acceptedCount := 0, target := 3,
    fetchedText := "A ransomware attack hit an Australian company.",
    filterLowSignal := false, requireIncident := true,
    incidentKw := ["ransomware", "data breach", "breach", "cyberattack", "attack",
      "exploit", "vulnerability", "malware", "ddos", "zero-day", "cve-"],
    llmFields := ⟨"An Australian company was hit by ransomware.", "", "", "", "", true⟩ }

/-- C1 witness: a concrete candidate that passes every pre-gate check raises
`NameError('accept_all')`. -/
theorem process_candidate_raises_accept_all_witness :
    reachesScoring pcScoringEx ∧
    (processCandidate pcScoringEx).result = .error (.nameError "accept_all") ∧
    runWorker pcScoringEx = (false, false) :=
  ⟨by decide, ((process_candidate_raises_accept_all pcScoringEx).2.2.2 (by decide)).1,
    (process_candidate_raises_accept_all pcScoringEx).2.2.1⟩

/-! ## C2 - cancellation -/

/-- A stored draft of a job that gets canceled mid-run (used below). -/
def canceledJobDraft : StoredDraft :=
  addResearchDraft (candidateDict rejectedCand [] 0)

/-- The persisted state of a job observed as canceled. -/
def canceledJobEx : JobPersist :=
  { status := "canceled", drafts := [canceledJobDraft], reports := 0 }

/-- C2, counterexample: the loop's status check does break on `canceled`,
but the auto-finalize tail of `run_research_job` then runs unconditionally:
the job is moved to `finalizing` and then `finalized` - it does not remain
in `canceled`. -/
theorem canceled_job_still_finalizes :
    loopBreaks (some ("canceled", 0)) 3 0 100 = true ∧
    (autoFinalize true canceledJobEx).2 = ["finalizing", "finalized"] ∧
    (autoFinalize true canceledJobEx).1.status = "finalized" ∧
    (autoFinalize true canceledJobEx).1.status ≠ "canceled" := by
  refine ⟨by decide, rfl, rfl, by decide⟩

/-- C2, amended: a worker whose status check observes `canceled` creates no
draft and does not fetch, and finalization never deletes drafts - but the
job does not stay `canceled`: after the loop breaks, the tail of
`run_research_job` unconditionally writes `finalizing` and then `finalized`
(or `failed` when persisting the report raises). -/
theorem canceled_job_amended :
    (∀ i : PCInput, i.jobStatus = some "canceled" →
      processCandidate i = ⟨.ok false, false, false⟩) ∧
    (∀ (ok : Bool) (j : JobPersist),
      (autoFinalize ok j).1.drafts = j.drafts ∧
      (autoFinalize ok j).2 = ["finalizing", if ok then "finalized" else "failed"]) := by
  constructor
  · intro i h
    unfold processCandidate
    rw [h]
    repeat' split
    all_goals first | rfl | (exfalso; simp_all)
  · intro ok j
    unfold autoFinalize
    rcases ok with _ | _ <;> exact ⟨rfl, rfl⟩

/-- The candidate of `pcScoringEx`, observed after its job was canceled. -/
def pcCanceledEx : PCInput := { pcScoringEx with jobStatus := some "canceled" }

/-- C2 witness: the canceled-status skip at a concrete input. -/
theorem canceled_job_amended_witness :
    pcCanceledEx.jobStatus = some "canceled" ∧
    processCandidate pcCanceledEx = ⟨.ok false, false, false⟩ :=
  ⟨rfl, canceled_job_amended.1 pcCanceledEx rfl⟩

/-! ## C6 - the acceptance bound under concurrency -/

/-- C6, counterexample: with `target_count = 1`, two workers both pass the
pre-fetch check at `accepted_count = 0`; the first commits 1; the second
re-reads 1 at line 750 and commits 2 - the commit does not compare the
re-read value against the target, so `accepted_count = 2 > 1` is an
observable snapshot. -/
theorem accepted_count_race_counterexample :
    RaceReach 1 { acc := 0, w1 := .idle, w2 := .idle }
      { acc := 2, w1 := .committed, w2 := .committed } ∧ 1 < 2 := by
  refine ⟨?_, by omega⟩
  have h1 : RaceStep 1 { acc := 0, w1 := .idle, w2 := .idle }
      { acc := 0, w1 := .checked, w2 := .idle } :=
    RaceStep.check1 _ rfl (by decide)
  have h2 : RaceStep 1 { acc := 0, w1 := .checked, w2 := .idle }
      { acc := 0, w1 := .checked, w2 := .checked } :=
    RaceStep.check2 _ rfl (by decide)
  have h3 : RaceStep 1 { acc := 0, w1 := .checked, w2 := .checked }
      { acc := 0, w1 := .readAcc 0, w2 := .checked } :=
    RaceStep.read1 _ rfl
  have h4 : RaceStep 1 { acc := 0, w1 := .readAcc 0, w2 := .checked }
      { acc := 1, w1 := .committed, w2 := .checked } :=
    RaceStep.commit1 _ 0 rfl
  have h5 : RaceStep 1 { acc := 1, w1 := .committed, w2 := .checked }
      { acc := 1, w1 := .committed, w2 := .readAcc 1 } :=
    RaceStep.read2 _ rfl
  have h6 : RaceStep 1 { acc := 1, w1 := .committed, w2 := .readAcc 1 }
      { acc := 2, w1 := .committed, w2 := .committed } :=
    RaceStep.commit2 _ 1 rfl
  exact .head h1 (.head h2 (.head h3 (.head h4 (.head h5 (.head h6 .refl)))))

/-- C6, amended: the pre-fetch check keeps a worker from starting once
`accepted_count ≥ target` (it returns before fetching, so a job that stops
at the target processes no further candidates), and under sequential
(non-interleaved) processing the bound `accepted_count ≤ target_count` is
an invariant; but the commit itself writes `read + 1` without re-checking
the target, so two interleaved workers racing to the last slot can push
`accepted_count` to `target_count + 1`. -/
theorem sequential_acceptance_bound :
    (∀ (target : Nat) (gates : List Bool) (acc : Nat), acc ≤ target →
      seqAccept target acc gates ≤ target) ∧
    (∀ i : PCInput, i.target ≤ i.acceptedCount →
      processCandidate i = ⟨.ok false, false, false⟩) := by
  constructor
  · intro target gates
    induction gates with
    | nil => intro acc h; exact h
    | cons g gs ih =>
      intro acc h
      unfold seqAccept
      split
      · next hc =>
        simp only [Bool.and_eq_true, decide_eq_true_eq] at hc
        exact ih _ (by omega)
      · exact ih _ h
  · intro i h
    unfold processCandidate
    repeat' split
    all_goals first | rfl | omega

/-- C6 witness: five gate-passing candidates processed sequentially against
`target_count = 3` end at exactly 3 accepted. -/
theorem sequential_acceptance_bound_witness :
    (0 : Nat) ≤ 3 ∧ seqAccept 3 0 [true, true, true, true, true] ≤ 3 :=
  ⟨by omega, sequential_acceptance_bound.1 3 [true, true, true, true, true] 0 (by omega)⟩

/-! ## C4 - deduplication -/

/-- `ldGet` on a selected key projects the field. -/
theorem ldGet_source_url (d : ListedDraft) : ldGet d "source_url" = d.source_url := by
  simp [ldGet]

theorem ldGet_title (d : ListedDraft) : ldGet d "title" = d.title := by
  simp [ldGet]

theorem ldGet_canonical_url (d : ListedDraft) : ldGet d "canonical_url" = d.canonical_url := by
  simp [ldGet]

/-- `content_hash` is not among the SELECTed columns, so the dict lookup in
the duplicate check always yields `None`. -/
theorem ldGet_content_hash (d : ListedDraft) : ldGet d "content_hash" = none := by
  simp [ldGet]

/-- The pairwise relation the working dedup layers do enforce among a job's
stored drafts: two `ok` drafts differ in canonical URL, source URL and
exact title. -/
def dedupR (a b : StoredDraft) : Prop :=
  a.qa_status = some "ok" → b.qa_status = some "ok" →
    a.canonical_url ≠ b.canonical_url ∧ a.source_url ≠ b.source_url ∧ a.title ≠ b.title

/-- Appending one processed candidate preserves the pairwise distinctness. -/
theorem commitCandidate_pairwise (c : CandSpec) (rows : List StoredDraft) (acc : Nat)
    (h : rows.Pairwise dedupR) : ((commitCandidate c rows acc).1).Pairwise dedupR := by
  unfold commitCandidate
  rw [List.pairwise_append]
  refine ⟨h, by simp [dedupR], ?_⟩
  intro a ha b hb
  simp only [List.mem_singleton] at hb
  subst hb
  intro _ hokb
  by_cases hq : candidateQaOk c rows
  · have hdupe : candidateDupe c rows = false := by
      have := hq
      unfold candidateQaOk at this
      rcases Bool.and_eq_true .. |>.mp this with ⟨h1, _⟩
      rcases Bool.and_eq_true .. |>.mp h1 with ⟨h2, _⟩
      rcases Bool.and_eq_true .. |>.mp h2 with ⟨_, h3⟩
      exact Bool.not_eq_true' .. |>.mp h3
    have hall : ∀ d ∈ listResearchDraftsFull rows,
        (optEqStr (ldGet d "source_url") c.url || optEqStr (ldGet d "title") c.title ||
         optEqStr (ldGet d "canonical_url") (canonS c.url) ||
         optEqStr (ldGet d "content_hash") (contentHash (pyTake 5000 c.text))) = false := by
      intro d hd
      have := hdupe
      unfold candidateDupe isDupe at this
      rw [List.any_eq_false] at this
      simpa using this d hd
    have hmem : listedOf a ∈ listResearchDraftsFull rows := List.mem_map_of_mem _ ha
    have hfalse := hall (listedOf a) hmem
    rw [ldGet_source_url, ldGet_title, ldGet_canonical_url] at hfalse
    rcases Bool.or_eq_false_iff.mp hfalse with ⟨hfalse, _⟩
    rcases Bool.or_eq_false_iff.mp hfalse with ⟨hfalse, hcanon⟩
    rcases Bool.or_eq_false_iff.mp hfalse with ⟨hsrc, htitle⟩
    have hsrc' : (listedOf a).source_url ≠ some c.url :=
      beq_eq_false_iff_ne .. |>.mp hsrc
    have htitle' : (listedOf a).title ≠ some c.title :=
      beq_eq_false_iff_ne .. |>.mp htitle
    have hcanon' : (listedOf a).canonical_url ≠ some (canonS c.url) :=
      beq_eq_false_iff_ne .. |>.mp hcanon
    exact ⟨hcanon', hsrc', htitle'⟩
  · exfalso
    have : (addResearchDraft (candidateDict c rows acc)).qa_status = some "failed" := by
      simp [addResearchDraft, candidateDict, hq]
    rw [this] at hokb
    simp at hokb

/-- Folding candidate processing preserves the pairwise distinctness. -/
theorem commitRun_pairwise :
    ∀ (cs : List CandSpec) (rows : List StoredDraft) (acc : Nat),
      rows.Pairwise dedupR → ((commitRun cs rows acc).1).Pairwise dedupR := by
  intro cs
  induction cs with
  | nil => intro rows acc h; exact h
  | cons c rest ih =>
    intro rows acc h
    exact ih _ _ (commitCandidate_pairwise c rows acc h)

/-- C4, amended: the duplicate check of `process_candidate` compares exact
source URL, exact (raw) title and canonical URL of all prior drafts of the
job - so no two `qa_status=ok` drafts of a job share a canonical URL, a
source URL or an exact title.  The content-hash layer never fires (the
check reads `content_hash` from rows of `list_research_drafts_full`, whose
SELECT omits that column, so it compares against `None`), the title layer
uses the raw title rather than the normalized title key, and the computed
`is_duplicate` flag is dropped by `add_research_draft`'s INSERT. -/
theorem dedup_ok_drafts_distinct :
    ∀ (cs : List CandSpec) (acc : Nat),
      ((commitRun cs [] acc).1).Pairwise dedupR := by
  intro cs acc
  exact commitRun_pairwise cs [] acc (List.Pairwise.nil)

/-- First counterexample candidate: accepted. -/
def candA : CandSpec :=
  { qaPre := true, url := "https://a.example.com/2024/alpha", title := "Alpha",
    text := "Shared body text.", summary := "Summary A.", date := "", targets := "",
    method := "", exploit_used := "", relevance := "" }

/-- Second counterexample candidate: same extracted text (hence the same
content hash) as the first, but a different URL and title. -/
def candB : CandSpec :=
  { qaPre := true, url := "https://b.example.com/2024/beta", title := "Beta",
    text := "Shared body text.", summary := "Summary B.", date := "", targets := "",
    method := "", exploit_used := "", relevance := "" }

/-- Third counterexample candidate: same normalized title key as the first
("alpha"), but a different exact title, URL and text. -/
def candC : CandSpec :=
  { qaPre := true, url := "https://c.example.com/2024/gamma", title := "ALPHA?",
    text := "A different body.", summary := "Summary C.", date := "", targets := "",
    method := "", exploit_used := "", relevance := "" }

/-- The job's stored drafts after processing the three candidates. -/
def dedupExRows : List StoredDraft := (commitRun [candA, candB, candC] [] 0).1

/-! ## C7 - URL canonicalization

Helper lemmas about the `urlparse` model, building to: the canonicalizers
are idempotent on URLs that carry a scheme and contain no `;` (they are not
idempotent in general, and they do not lower-case the host). -/

/-- A scheme character is never the colon. -/
theorem schemeCharN_ne_colon {c : Nat} (h : schemeCharN c = true) : (c == cColon) = false := by
  cases hc : c == cColon with
  | false => rfl
  | true =>
    exfalso
    have : c = 58 := eq_of_beq hc
    subst this
    simp [schemeCharN, isAlphaN, isDigitN] at h

/-- Scanning a valid scheme body followed by `:` succeeds. -/
theorem scanScheme_append (s r : PStr) (hs : ∀ c ∈ s, schemeCharN c = true) :
    scanScheme (s ++ cColon :: r) = some (s, r) := by
  induction s with
  | nil => simp [scanScheme, cColon]
  | cons a t ih =>
    have ha : schemeCharN a = true := hs a (by simp)
    have hne := schemeCharN_ne_colon ha
    simp only [List.cons_append, scanScheme, hne, Bool.false_eq_true, reduceIte, ha,
      if_true, List.append_eq]
    rw [ih (fun c hc => hs c (by simp [hc]))]
    rfl

/-- Splitting a URL of the shape `scheme ++ ":" ++ rest` recovers the
scheme. -/
theorem splitScheme_append (a : Nat) (s r : PStr) (ha : isAlphaN a = true)
    (hs : ∀ c ∈ s, schemeCharN c = true) :
    splitScheme ((a :: s) ++ cColon :: r) = some (a :: s, r) := by
  simp only [List.cons_append, splitScheme, ha, if_true]
  rw [scanScheme_append s r hs]
  rfl

/-- Inversion of a successful scheme scan. -/
theorem scanScheme_inv : ∀ (r₀ s₁ r : PStr), scanScheme r₀ = some (s₁, r) →
    r₀ = s₁ ++ cColon :: r ∧ ∀ c ∈ s₁, schemeCharN c = true := by
  intro r₀
  induction r₀ with
  | nil => intro s₁ r h; simp [scanScheme] at h
  | cons c t ih =>
    intro s₁ r h
    by_cases hc : (c == cColon) = true
    · have hc' : c = 58 := eq_of_beq hc
      subst hc'
      simp only [scanScheme, beq_self_eq_true, if_true, Option.some.injEq,
        Prod.mk.injEq] at h
      obtain ⟨h1, h2⟩ := h
      subst h1; subst h2
      exact ⟨rfl, by simp⟩
    · simp only [scanScheme, hc, Bool.false_eq_true, reduceIte] at h
      by_cases hsc : schemeCharN c = true
      · simp only [hsc, if_true, Option.map_eq_some'] at h
        obtain ⟨⟨s₁', r'⟩, hscan, heq⟩ := h
        cases heq
        obtain ⟨ht, hchars⟩ := ih s₁' r' hscan
        constructor
        · simp [ht]
        · intro d hd
          rcases List.mem_cons.mp hd with hd | hd
          · subst hd; exact hsc
          · exact hchars d hd
      · simp [hsc] at h

/-- Inversion of a successful scheme split. -/
theorem splitScheme_inv (u s r : PStr) (h : splitScheme u = some (s, r)) :
    ∃ a s₀, s = a :: s₀ ∧ isAlphaN a = true ∧ (∀ c ∈ s₀, schemeCharN c = true) ∧
      u = s ++ cColon :: r := by
  cases u with
  | nil => simp [splitScheme] at h
  | cons c t =>
    by_cases ha : isAlphaN c = true
    · simp only [splitScheme, ha, if_true, Option.map_eq_some'] at h
      obtain ⟨⟨s₀, r'⟩, hscan, heq⟩ := h
      cases heq
      obtain ⟨ht, hchars⟩ := scanScheme_inv t s₀ r' hscan
      exact ⟨c, s₀, rfl, ha, hchars, by simp [ht]⟩
    · simp [splitScheme, ha] at h

/-- Lower-casing preserves being alphabetic. -/
theorem isAlphaN_lowN {a : Nat} (h : isAlphaN a = true) : isAlphaN (lowN a) = true := by
  simp only [isAlphaN, lowN, Bool.or_eq_true, Bool.and_eq_true, decide_eq_true_eq] at h ⊢
  split <;> omega

/-- Lower-casing preserves being a scheme character. -/
theorem schemeCharN_lowN {c : Nat} (h : schemeCharN c = true) :
    schemeCharN (lowN c) = true := by
  simp only [schemeCharN, isAlphaN, isDigitN, lowN, Bool.or_eq_true, Bool.and_eq_true,
    decide_eq_true_eq, beq_iff_eq] at h ⊢
  split <;> omega

/-- Lower-casing a code point is idempotent. -/
theorem lowN_idem (n : Nat) : lowN (lowN n) = lowN n := by
  simp only [lowN, Bool.and_eq_true, decide_eq_true_eq]
  split_ifs <;> omega

/-- Lower-casing a string is idempotent. -/
theorem lowS_idem (s : PStr) : lowS (lowS s) = lowS s := by
  induction s with
  | nil => rfl
  | cons a t ih =>
    simp only [lowS, List.map_cons] at ih ⊢
    rw [lowN_idem, ih]

/-- `dropWhile` is idempotent. -/
theorem dropWhile_idem_list (p : Nat → Bool) (l : List Nat) :
    (l.dropWhile p).dropWhile p = l.dropWhile p := by
  induction l with
  | nil => rfl
  | cons a t ih =>
    rw [List.dropWhile_cons]
    split
    · exact ih
    · next hpa => rw [List.dropWhile_cons, if_neg hpa]

/-- `rstrip` distributes over an append whose right part leaves a residue. -/
theorem rstripSlash_append (x q : PStr) (h : rstripSlash q ≠ []) :
    rstripSlash (x ++ q) = x ++ rstripSlash q := by
  unfold rstripSlash at h ⊢
  rw [List.reverse_append, List.dropWhile_append]
  have hne : (q.reverse.dropWhile (fun c => c == cSlash)).isEmpty = false := by
    cases hq : q.reverse.dropWhile (fun c => c == cSlash) with
    | nil => exfalso; exact h (by rw [hq]; rfl)
    | cons a t => rfl
  rw [hne]
  simp

/-- `rstrip` kills an all-slash right part. -/
theorem rstripSlash_append_nil (x q : PStr) (h : rstripSlash q = []) :
    rstripSlash (x ++ q) = rstripSlash x := by
  unfold rstripSlash at h ⊢
  rw [List.reverse_append, List.dropWhile_append]
  have hq : (q.reverse.dropWhile (fun c => c == cSlash)) = [] := by
    have := congrArg List.reverse h
    simpa using this
  rw [hq]
  simp

/-- `rstrip` is idempotent. -/
theorem rstripSlash_idem (q : PStr) : rstripSlash (rstripSlash q) = rstripSlash q := by
  unfold rstripSlash
  rw [List.reverse_reverse, dropWhile_idem_list]

/-- Members of `rstrip`'s output come from its input. -/
theorem mem_rstripSlash {c : Nat} {q : PStr} (h : c ∈ rstripSlash q) : c ∈ q := by
  unfold rstripSlash at h
  rw [List.mem_reverse] at h
  have := (List.dropWhile_sublist _).subset h
  rwa [List.mem_reverse] at this

/-- `takeWhile`-as-identity on lists avoiding one code point. -/
theorem beforeC_eq_self {c : Nat} {l : PStr} (h : c ∉ l) : beforeC c l = l := by
  unfold beforeC
  refine List.takeWhile_eq_self_iff.mpr ?_
  intro x hx
  simp only [Bool.not_eq_true']
  cases hb : x == c with
  | false => rfl
  | true => exact absurd (eq_of_beq hb ▸ hx) h

/-- Members of `beforeC`'s output come from its input. -/
theorem mem_beforeC {a c : Nat} {l : PStr} (h : a ∈ beforeC c l) : a ∈ l :=
  (List.takeWhile_sublist _).subset h

/-- Membership transfer through `reverse`-`takeWhile`-`reverse`. -/
theorem mem_of_revTakeWhile {a : Nat} {q : Nat → Bool} {p : PStr}
    (h : a ∈ (List.takeWhile q p.reverse).reverse) : a ∈ p := by
  rw [List.mem_reverse] at h
  have h2 := (List.takeWhile_sublist _).subset h
  rwa [List.mem_reverse] at h2

/-- Membership transfer through `reverse`-`dropWhile`-`reverse`. -/
theorem mem_of_revDropWhile {a : Nat} {q : Nat → Bool} {p : PStr}
    (h : a ∈ (List.dropWhile q p.reverse).reverse) : a ∈ p := by
  rw [List.mem_reverse] at h
  have h2 := (List.dropWhile_sublist _).subset h
  rwa [List.mem_reverse] at h2

/-- `splitParams` is the identity on semicolon-free paths. -/
theorem splitParams_of_no_semi {p : PStr} (h : cSemi ∉ p) : splitParams p = p := by
  unfold splitParams
  have hseg : ∀ l : PStr, (∀ x ∈ l, x ≠ cSemi) → dropParamsSeg l = l := by
    intro l hl
    unfold dropParamsSeg
    refine List.takeWhile_eq_self_iff.mpr ?_
    intro x hx
    simp only [Bool.not_eq_true']
    cases hb : x == cSemi with
    | false => rfl
    | true => exact absurd (eq_of_beq hb) (hl x hx)
  split
  · rw [hseg _ (fun x hx hxc => h (hxc ▸ mem_of_revTakeWhile hx))]
    rw [← List.reverse_append, List.takeWhile_append_dropWhile, List.reverse_reverse]
  · exact hseg p (fun x hx hxc => h (hxc ▸ hx))

/-- Members of `splitParams`'s output come from its input. -/
theorem mem_splitParams {a : Nat} {p : PStr} (h : a ∈ splitParams p) : a ∈ p := by
  unfold splitParams at h
  split at h
  · rcases List.mem_append.mp h with h | h
    · exact mem_of_revDropWhile h
    · exact mem_of_revTakeWhile ((List.takeWhile_sublist _).subset h)
  · exact (List.takeWhile_sublist _).subset h

/-- Strip the trailing `://` of a formatted URL whose netloc and path
vanished. -/
theorem rstripSlash_scheme_tail (x : PStr) :
    rstripSlash (x ++ [cColon, cSlash, cSlash]) = x ++ [cColon] := by
  unfold rstripSlash
  rw [List.reverse_append]
  have e1 : List.reverse [cColon, cSlash, cSlash] = cSlash :: cSlash :: cColon :: [] := rfl
  rw [e1, List.cons_append, List.cons_append, List.cons_append, List.nil_append,
    List.dropWhile_cons, if_pos (by decide), List.dropWhile_cons, if_pos (by decide),
    List.dropWhile_cons, if_neg (by decide), List.reverse_cons, List.reverse_reverse]

/-- The canonicalizer's output is a fixpoint of the canonicalizer, for any
formatted `scheme://netloc+path` whose scheme is already lower-cased and
whose remainder is free of `#`, `?` and `;`. -/
theorem canon_fixpoint (a : Nat) (s₀ q : PStr)
    (ha : isAlphaN a = true) (hs : ∀ c ∈ s₀, schemeCharN c = true)
    (hlow : lowS (a :: s₀) = a :: s₀)
    (hqh : cHash ∉ q) (hqq : cQuest ∉ q) (hqs : cSemi ∉ q) :
    canonPipe (rstripSlash ((a :: s₀) ++ cColon :: cSlash :: cSlash :: q)) =
      rstripSlash ((a :: s₀) ++ cColon :: cSlash :: cSlash :: q) ∧
    (parse3 (rstripSlash ((a :: s₀) ++ cColon :: cSlash :: cSlash :: q))).1 = a :: s₀ := by
  have hx : (a :: s₀) ++ cColon :: cSlash :: cSlash :: q =
      ((a :: s₀) ++ [cColon, cSlash, cSlash]) ++ q := by simp
  by_cases hq : rstripSlash q = []
  · -- the netloc+path part is all slashes (or empty): the output is `scheme:`
    rw [hx, rstripSlash_append_nil _ _ hq, rstripSlash_scheme_tail]
    have hsplit : splitScheme ((a :: s₀) ++ [cColon]) = some (a :: s₀, []) := by
      have h0 := splitScheme_append a s₀ [] ha hs
      simpa using h0
    constructor
    · unfold canonPipe parse3
      rw [hsplit]
      dsimp only
      rw [hlow]
      unfold fmtCanon splitNetloc beforeC splitParams dropParamsSeg
      simp only [List.takeWhile_nil, List.append_nil, List.contains]
      exact rstripSlash_scheme_tail (a :: s₀)
    · unfold parse3
      rw [hsplit]
      exact hlow
  · -- a residue q' remains after stripping: the output re-parses to the
    -- same scheme and a re-split of q' into netloc and path
    rw [hx, rstripSlash_append _ _ hq]
    have ho : ((a :: s₀) ++ [cColon, cSlash, cSlash]) ++ rstripSlash q =
        (a :: s₀) ++ cColon :: cSlash :: cSlash :: rstripSlash q := by simp
    rw [ho]
    have hsplit : splitScheme ((a :: s₀) ++ cColon :: (cSlash :: cSlash :: rstripSlash q)) =
        some (a :: s₀, cSlash :: cSlash :: rstripSlash q) :=
      splitScheme_append a s₀ _ ha hs
    have hmemdw : ∀ {c : Nat}, c ∈ List.dropWhile notDelim (rstripSlash q) → c ∈ q :=
      fun hc => mem_rstripSlash ((List.dropWhile_sublist _).subset hc)
    have hbh : cHash ∉ List.dropWhile notDelim (rstripSlash q) := fun hc => hqh (hmemdw hc)
    have hbq : cQuest ∉ beforeC cHash (List.dropWhile notDelim (rstripSlash q)) :=
      fun hc => hqq (hmemdw (mem_beforeC hc))
    have hbs : cSemi ∉ beforeC cQuest (beforeC cHash (List.dropWhile notDelim (rstripSlash q))) :=
      fun hc => hqs (hmemdw (mem_beforeC (mem_beforeC hc)))
    have hpath : splitParams (beforeC cQuest (beforeC cHash
        (List.dropWhile notDelim (rstripSlash q)))) =
        List.dropWhile notDelim (rstripSlash q) := by
      rw [splitParams_of_no_semi hbs, beforeC_eq_self hbq, beforeC_eq_self hbh]
    constructor
    · unfold canonPipe parse3
      rw [hsplit]
      dsimp only
      unfold splitNetloc
      dsimp only
      rw [hpath, hlow]
      unfold fmtCanon
      rw [List.takeWhile_append_dropWhile]
      have hq' : rstripSlash (rstripSlash q) ≠ [] := by
        rw [rstripSlash_idem]; exact hq
      have hx2 : (a :: s₀) ++ cColon :: cSlash :: cSlash :: rstripSlash q =
          ((a :: s₀) ++ [cColon, cSlash, cSlash]) ++ rstripSlash q := by simp
      rw [hx2, rstripSlash_append _ _ hq', rstripSlash_idem]
    · unfold parse3
      rw [hsplit]
      exact hlow

/-- Netloc characters never include the path/query/fragment delimiters. -/
theorem splitNetloc_fst_notDelim (r : PStr) : ∀ c ∈ (splitNetloc r).1, notDelim c = true := by
  unfold splitNetloc
  split
  · intro c hc; exact List.mem_takeWhile_imp hc
  · intro c hc; simp at hc

/-- Netloc members come from the split's input. -/
theorem splitNetloc_fst_mem (r : PStr) : ∀ c ∈ (splitNetloc r).1, c ∈ r := by
  unfold splitNetloc
  split
  · intro c hc
    have := (List.takeWhile_sublist _).subset hc
    exact List.mem_cons_of_mem _ (List.mem_cons_of_mem _ this)
  · intro c hc; simp at hc

/-- Remainder members come from the split's input. -/
theorem splitNetloc_snd_mem (r : PStr) : ∀ c ∈ (splitNetloc r).2, c ∈ r := by
  unfold splitNetloc
  split
  · intro c hc
    have := (List.dropWhile_sublist _).subset hc
    exact List.mem_cons_of_mem _ (List.mem_cons_of_mem _ this)
  · intro c hc; exact hc

/-- A `notDelim` character is neither `#` nor `?`. -/
theorem notDelim_ne (c : Nat) (h : notDelim c = true) : c ≠ cHash ∧ c ≠ cQuest := by
  unfold notDelim at h
  constructor
  · intro hc; subst hc; simp at h
  · intro hc; subst hc; simp at h

/-- `beforeC` keeps only characters different from its delimiter. -/
theorem mem_beforeC_ne {a c : Nat} {l : PStr} (h : a ∈ beforeC c l) : a ≠ c := by
  have hp := List.mem_takeWhile_imp h
  simp only [Bool.not_eq_true'] at hp
  intro hac
  subst hac
  simp at hp

/-- C7, amended: on every URL that carries a scheme and contains no `;`
(and no square brackets or control characters, which the model does not
cover), both canonicalizers are idempotent and agree; the scheme is
lower-cased but the host's case is preserved.  Without a scheme
`_canon_url` is not idempotent, and a `;` in a non-final path segment also
breaks idempotence - see the counterexample. -/
theorem canon_url_amended :
    (∀ u : PStr, (splitScheme u).isSome → cSemi ∉ u → (91 : Nat) ∉ u → (93 : Nat) ∉ u →
      (∀ c ∈ u, 32 < c) →
      canonPipe (canonPipe u) = canonPipe u ∧
      canonDisc u = canonPipe u ∧
      canonDisc (canonDisc u) = canonDisc u) ∧
    canonPipe (cps "HTTP://Example.com/a/") = cps "http://Example.com/a" := by
  constructor
  · intro u hscheme hsemi _hlb _hrb _hctl
    obtain ⟨⟨s, r⟩, hsp⟩ := Option.isSome_iff_exists.mp hscheme
    obtain ⟨a, s₀, hs_eq, ha, hchars, hu⟩ := splitScheme_inv u s r hsp
    subst hs_eq
    -- abbreviations for the parsed netloc and path
    have hmem_n : ∀ c ∈ (splitNetloc r).1, c ∈ u := by
      intro c hc
      rw [hu]
      exact List.mem_append_right _ (List.mem_cons_of_mem _ (splitNetloc_fst_mem r c hc))
    have hmem_p : ∀ c ∈ splitParams (beforeC cQuest (beforeC cHash (splitNetloc r).2)), c ∈ u := by
      intro c hc
      rw [hu]
      refine List.mem_append_right _ (List.mem_cons_of_mem _ ?_)
      exact splitNetloc_snd_mem r c (mem_beforeC (mem_beforeC (mem_splitParams hc)))
    have hqh : cHash ∉ (splitNetloc r).1 ++ splitParams (beforeC cQuest (beforeC cHash (splitNetloc r).2)) := by
      intro hc
      rcases List.mem_append.mp hc with hc | hc
      · exact (notDelim_ne _ (splitNetloc_fst_notDelim r _ hc)).1 rfl
      · exact mem_beforeC_ne (mem_beforeC (mem_splitParams hc)) rfl
    have hqq : cQuest ∉ (splitNetloc r).1 ++ splitParams (beforeC cQuest (beforeC cHash (splitNetloc r).2)) := by
      intro hc
      rcases List.mem_append.mp hc with hc | hc
      · exact (notDelim_ne _ (splitNetloc_fst_notDelim r _ hc)).2 rfl
      · exact mem_beforeC_ne (mem_splitParams hc) rfl
    have hqs : cSemi ∉ (splitNetloc r).1 ++ splitParams (beforeC cQuest (beforeC cHash (splitNetloc r).2)) := by
      intro hc
      rcases List.mem_append.mp hc with hc | hc
      · exact hsemi (hmem_n _ hc)
      · exact hsemi (hmem_p _ hc)
    have hlowchars : ∀ c ∈ lowS s₀, schemeCharN c = true := by
      intro c hc
      obtain ⟨d, hd, hdc⟩ := List.mem_map.mp hc
      exact hdc ▸ schemeCharN_lowN (hchars d hd)
    have hlow2 : lowS (lowN a :: lowS s₀) = lowN a :: lowS s₀ := by
      have := lowS_idem (a :: s₀)
      simpa [lowS] using this
    have key := canon_fixpoint (lowN a) (lowS s₀)
      ((splitNetloc r).1 ++ splitParams (beforeC cQuest (beforeC cHash (splitNetloc r).2)))
      (isAlphaN_lowN ha) hlowchars hlow2 hqh hqq hqs
    have hcanon_u : canonPipe u =
        rstripSlash ((lowN a :: lowS s₀) ++ cColon :: cSlash :: cSlash ::
          ((splitNetloc r).1 ++ splitParams (beforeC cQuest (beforeC cHash (splitNetloc r).2)))) := by
      unfold canonPipe parse3
      rw [hsp]
      rfl
    have hdisc_u : canonDisc u = canonPipe u := by
      unfold canonDisc
      rw [if_neg ?_]
      unfold parse3
      rw [hsp]
      dsimp only
      simp [lowS]
    refine ⟨?_, hdisc_u, ?_⟩
    · rw [hcanon_u]
      exact key.1
    · rw [hdisc_u, hcanon_u]
      unfold canonDisc
      rw [if_neg ?_, key.1]
      rw [key.2]
      simp
  · decide

/-- A concrete in-domain URL for the C7 witness. -/
def c7WitnessUrl : PStr := cps "https://Example.com/path/a/"

/-- C7 witness: the amended idempotence at a concrete schemed,
semicolon-free URL. -/
theorem canon_url_amended_witness :
    ((splitScheme c7WitnessUrl).isSome ∧ cSemi ∉ c7WitnessUrl ∧
      (91 : Nat) ∉ c7WitnessUrl ∧ (93 : Nat) ∉ c7WitnessUrl ∧
      (∀ c ∈ c7WitnessUrl, 32 < c)) ∧
    canonPipe (canonPipe c7WitnessUrl) = canonPipe c7WitnessUrl ∧
    canonDisc c7WitnessUrl = canonPipe c7WitnessUrl ∧
    canonDisc (canonDisc c7WitnessUrl) = canonDisc c7WitnessUrl :=
  ⟨⟨by decide, by decide, by decide, by decide, by decide⟩,
    canon_url_amended.1 c7WitnessUrl (by decide) (by decide) (by decide) (by decide) (by decide)⟩

/-- C7, counterexample: `_canon_url` is not idempotent on a scheme-less URL
("example.com/a" canonicalizes to "://example.com/a", which re-canonicalizes
to "://://example.com/a"); the host's case is not normalized
("HTTP://Example.com/a/" keeps the capital E, only the scheme is lowered);
and a `;` in a non-final path segment breaks idempotence even with a scheme
(both for `_canon_url` and for discovery's `canon_url`). -/
theorem canon_url_counterexample :
    canonPipe (canonPipe (cps "example.com/a")) ≠ canonPipe (cps "example.com/a") ∧
    canonPipe (cps "HTTP://Example.com/a/") = cps "http://Example.com/a" ∧
    canonPipe (cps "HTTP://Example.com/a/") ≠ cps "http://example.com/a" ∧
    canonPipe (canonPipe (cps "http://h/x;y/")) ≠ canonPipe (cps "http://h/x;y/") ∧
    canonDisc (canonDisc (cps "http://h/x;y/")) ≠ canonDisc (cps "http://h/x;y/") := by
  refine ⟨?_, ?_, ?_, ?_, ?_⟩ <;> decide

set_option maxRecDepth 100000 in
/-- C4, counterexample: all three candidates are stored with
`qa_status='ok'`; the first two share a content hash and the first and third
share a normalized title key, yet none is marked `is_duplicate` (the stored
flag is 0 for every row) and none is rejected - the content-hash and
normalized-title-key layers of the claim do not hold. -/
theorem dedup_layers_counterexample :
    (dedupExRows.map fun r => (r.qa_status, r.is_duplicate)) =
      [(some "ok", 0), (some "ok", 0), (some "ok", 0)] ∧
    (dedupExRows.map (·.content_hash)).get? 0 = (dedupExRows.map (·.content_hash)).get? 1 ∧
    (dedupExRows.map (·.title_key)).get? 0 = (dedupExRows.map (·.title_key)).get? 2 ∧
    (dedupExRows.map (·.canonical_url)).get? 0 ≠ (dedupExRows.map (·.canonical_url)).get? 1 ∧
    (commitRun [candA, candB, candC] [] 0).2 = 3 := by
  refine ⟨?_, ?_, ?_, ?_, ?_⟩ <;> decide

end Cerberus
